import Mathlib

/-!
Verification development for the Fiscus grocery price-comparison system.

Part 1 embeds the frontend shopping-cart state machine from
`frontend/src/context/CartContext.js`.
Part 2 embeds `assignStoreBadges` from the map screen.
Part 3 models the backend scraping engine (validator, reconciler, store
context injectors, orchestrator); the backend implementation files are not
in the repository snapshot, so those definitions are modelled from the
specification and from the code fragments in `backend/docs/cron.md`.

Numeric page/cart values are modelled as rationals (`ℚ`); rationals that
definitions must compute with are built via `mkRat` so that all
definitions evaluate inside the kernel.
-/

namespace Fiscus

/-- Product payload passed to `addToCart` (`{ id, name, price }`). -/
structure Product where
  id : Int
  name : String
  price : Rat
  deriving DecidableEq, Repr

/-- One cart line, as stored in the `items` state array of `CartProvider`:
`{ id, name, price, quantity }`. -/
structure CartItem where
  id : Int
  name : String
  price : Rat
  quantity : Int
  deriving DecidableEq, Repr

/-- Core of `addToCart`: JavaScript `findIndex` on `id` followed by an
in-place quantity bump at that index, else an append of the product with
`quantity: 1`.  The recursion bumps the first item whose `id` matches,
exactly as `findIndex` does. -/
def addToCartLoop (p : Product) : List CartItem → List CartItem
  | [] => [⟨p.id, p.name, p.price, 1⟩]
  | it :: rest =>
    if it.id = p.id then { it with quantity := it.quantity + 1 } :: rest
    else it :: addToCartLoop p rest

/-- The `addToCart` callback of `CartContext.js`.  The JavaScript guard
`if (!product?.id) return;` drops products with a falsy `id`; for integer
ids the falsy value is `0`. -/
def addToCart (items : List CartItem) (p : Product) : List CartItem :=
  if p.id = 0 then items else addToCartLoop p items

/-- The `removeFromCart` callback: `prevItems.filter(i => i.id !== productId)`. -/
def removeFromCart (items : List CartItem) (productId : Int) : List CartItem :=
  items.filter (fun it => it.id != productId)

/-- The `updateQuantity` callback: on the matching item the new quantity is
`Math.max(1, item.quantity + change)`. -/
def updateQuantity (items : List CartItem) (productId change : Int) : List CartItem :=
  items.map (fun it =>
    if it.id = productId then { it with quantity := max 1 (it.quantity + change) } else it)

/-- The `setQuantity` callback: `validQuantity = Math.max(1, parseInt(quantity, 10) || 1)`;
for an integer input `parseInt` is the identity and `|| 1` replaces `0` by `1`. -/
def setQuantity (items : List CartItem) (productId q : Int) : List CartItem :=
  items.map (fun it =>
    if it.id = productId then { it with quantity := max 1 (if q = 0 then 1 else q) } else it)

/-- The `clearCart` callback: resets the items array to `[]`. -/
def clearCart (_ : List CartItem) : List CartItem := []

/-- One user-level cart operation offered by the `CartProvider` context value. -/
inductive CartOp where
  | add (p : Product)
  | remove (productId : Int)
  | update (productId change : Int)
  | setQty (productId q : Int)
  | clear
  deriving Repr

/-- Apply one cart operation to the current items state. -/
def applyCartOp (items : List CartItem) : CartOp → List CartItem
  | .add p => addToCart items p
  | .remove productId => removeFromCart items productId
  | .update productId change => updateQuantity items productId change
  | .setQty productId q => setQuantity items productId q
  | .clear => clearCart items

/-- Run a sequence of cart operations starting from the empty cart, the
initial `useState([])` state of `CartProvider`. -/
def runCart (ops : List CartOp) : List CartItem := ops.foldl applyCartOp []

/-- Invariant of the cart state: every line has quantity at least 1, no line
has the falsy id 0, and the line ids are pairwise distinct. -/
def CartInv (items : List CartItem) : Prop :=
  (∀ it ∈ items, 1 ≤ it.quantity) ∧ (∀ it ∈ items, it.id ≠ 0) ∧
    (items.map CartItem.id).Nodup

/-- Theme colour `colors.primary` from `theme.js`. -/
def colorPrimary : String := "#b39ddb"

/-- Theme colour `colors.success` from `theme.js`. -/
def colorSuccess : String := "#4ade80"

/-- Theme colour `colors.warning` from `theme.js`. -/
def colorWarning : String := "#fbbf24"

/-- Store entry consumed by `assignStoreBadges` on the map screen:
`{ id, name, total_price, savings, ... }` (coordinates and distance are
irrelevant to badge assignment and omitted). -/
structure StoreEntry where
  id : Int
  name : String
  total_price : Rat
  savings : Rat
  deriving DecidableEq, Repr

/-- Output of `assignStoreBadges`: the input store spread together with
`isBest`, `badge` and `badgeColor`. -/
structure BadgedStore where
  id : Int
  name : String
  total_price : Rat
  savings : Rat
  isBest : Bool
  badge : Option String
  badgeColor : String
  deriving DecidableEq, Repr

instance : DecidableRel (fun a b : StoreEntry => a.total_price ≤ b.total_price) :=
  fun a b => inferInstanceAs (Decidable (a.total_price ≤ b.total_price))

instance : IsTotal StoreEntry (fun a b => a.total_price ≤ b.total_price) :=
  ⟨fun a b => le_total a.total_price b.total_price⟩

instance : IsTrans StoreEntry (fun a b => a.total_price ≤ b.total_price) :=
  ⟨fun _ _ _ hab hbc => le_trans hab hbc⟩

/-- JavaScript `[...storeList].sort((a, b) => a.total_price - b.total_price)`:
`Array.prototype.sort` with a consistent comparator is the stable sort by
`total_price`, modelled by the stable `insertionSort`. -/
def sortByTotal (storeList : List StoreEntry) : List StoreEntry :=
  List.insertionSort (fun a b => a.total_price ≤ b.total_price) storeList

/-- JavaScript `Number.prototype.toFixed(0)`: round to the nearest integer,
ties going to the larger value, i.e. the floor of `x + 1/2`, computed here on
numerator and denominator directly. -/
def toFixed0 (x : Rat) : Int := Int.ediv (2 * x.num + (x.den : Int)) (2 * (x.den : Int))

/-- Body of the `storeList.map((store, index) => ...)` callback in
`assignStoreBadges`, hoisted out for reasoning: `s0` is `sorted[0]`,
`second?` is `sorted[1]` when present. -/
def badgeFor (s0 : StoreEntry) (second? : Option StoreEntry) (store : StoreEntry) :
    BadgedStore :=
  let isBest : Bool := store.id == s0.id
  let isSecondBest : Bool :=
    match second? with
    | some s1 => store.id == s1.id
    | none => false
  let badge : Option String :=
    if isBest then some "Найкраща ціна"
    else if isSecondBest && decide ((0 : Rat) < store.savings) then
      some ("Економія ₴" ++ toString (toFixed0 store.savings))
    else if decide ((20 : Rat) < store.savings) then
      some ("Економія ₴" ++ toString (toFixed0 store.savings))
    else none
  let badgeColor : String :=
    if isBest then colorSuccess
    else if isSecondBest && decide ((0 : Rat) < store.savings) then colorWarning
    else if decide ((20 : Rat) < store.savings) then colorPrimary
    else colorPrimary
  { id := store.id, name := store.name, total_price := store.total_price,
    savings := store.savings, isBest := isBest, badge := badge,
    badgeColor := badgeColor }

/-- The `assignStoreBadges` helper of the map screen.  The JavaScript guard
`if (!storeList || storeList.length === 0) return [];` corresponds to the
empty case of the match, since the sorted copy of a non-empty list is a
non-empty cons. -/
def assignStoreBadges (storeList : List StoreEntry) : List BadgedStore :=
  match sortByTotal storeList with
  | [] => []
  | s0 :: rest => storeList.map (badgeFor s0 rest.head?)

/-- Demo store list for the C10 witness, with the three mock stores of the map
screen (prices in whole hryvnias). -/
def demoStores : List StoreEntry :=
  [⟨1, "Фора", 243, 52⟩, ⟨2, "АТБ-Маркет", 268, 25⟩, ⟨3, "Сільпо", 312, 0⟩]

/-- The `Store` model of `apps/core/models.py`, as shown in `docs/cron.md`:
one physical retail location, with the retailer-assigned
`external_store_id` (unique) and the `(chain_name, address)` unique pair. -/
structure Store where
  id : Nat
  chain_name : String
  address : String
  external_store_id : String
  url_base : String
  latitude : Rat
  longitude : Rat
  is_active : Bool
  deriving DecidableEq, Repr

/-- The transient store-context dict passed to `set_store_context`
(`docs/cron.md`): `{external_store_id, chain_name, address, latitude, longitude}`. -/
structure StoreContext where
  external_store_id : String
  chain_name : String
  address : String
  latitude : Rat
  longitude : Rat
  deriving DecidableEq, Repr

/-- A transient raw scraped record, pre-validation:
`{chain_name, external_store_id, name, price, in_stock}`. -/
structure RawRecord where
  chain_name : String
  external_store_id : String
  name : String
  price : Rat
  in_stock : Bool
  deriving DecidableEq, Repr

/-- Trimming of a character list: drop leading and trailing whitespace, the
semantics of a string `trim`/`strip`. -/
def trimChars (cs : List Char) : List Char :=
  ((cs.dropWhile Char.isWhitespace).reverse.dropWhile Char.isWhitespace).reverse

/-- Trimmed character content of a record name. -/
def trimName (s : String) : List Char := trimChars s.toList

/-- Resolution of a raw record against the known `Store` rows: the first store
matching both `chain_name` and `external_store_id`. -/
def resolveStore (stores : List Store) (r : RawRecord) : Option Store :=
  stores.find? (fun s => s.chain_name == r.chain_name && s.external_store_id == r.external_store_id)

/-- Result of validating one raw record. -/
inductive ValidationResult where
  | accepted (r : RawRecord)
  | rejected (reason : String)
  deriving DecidableEq, Repr

/-- Modelled from the spec: the strict validation layer
(`apps/scraper/schemas.py`, not part of the repository snapshot; `docs/cron.md`
documents it as rejecting prices `<= 0`, missing titles and invalid formats).
Rules: `price > 0` strictly, `name` non-empty after trimming, `chain_name` and
`external_store_id` present and resolvable to a known `Store`.  The function is
total: it always returns `accepted` or `rejected`, never raising. -/
def validate (stores : List Store) (r : RawRecord) : ValidationResult :=
  if r.price ≤ 0 then .rejected "price must be strictly positive"
  else if trimName r.name = [] then .rejected "name empty after trimming"
  else
    match resolveStore stores r with
    | none => .rejected "chain_name and external_store_id do not resolve to a known Store"
    | some _ => .accepted r

/-- True exactly on records the validator accepts. -/
def isAccepted (stores : List Store) (r : RawRecord) : Bool :=
  match validate stores r with
  | .accepted _ => true
  | .rejected _ => false

/-- The accepted subset of a raw batch; this and only this subset is handed to
the reconciler. -/
def acceptedRecords (stores : List Store) (records : List RawRecord) : List RawRecord :=
  records.filter (isAccepted stores)

/-- One persisted `Price` observation (`apps/core/models.py` via `docs/cron.md`):
product and store references, the observed value, availability, timestamp. -/
structure PriceRow where
  product : String
  store : Nat
  price_value : Rat
  is_available : Bool
  scraped_at : Nat
  deriving DecidableEq, Repr

/-- Persistent state touched by reconciliation: known product names and the
append-only `Price` table. -/
structure ScrapeDB where
  products : List String
  prices : List PriceRow
  deriving DecidableEq, Repr

/-- Picker for the most recent observation: keep the row with the larger
timestamp, later rows winning ties (`ORDER BY scraped_at DESC` on an
append-only table). -/
def pickLater (acc : Option PriceRow) (row : PriceRow) : Option PriceRow :=
  match acc with
  | none => some row
  | some best => if best.scraped_at ≤ row.scraped_at then some row else some best

/-- Most recent `Price` row for a `(product, store)` pair, authoritative for
current-price queries. -/
def mostRecent (prices : List PriceRow) (product : String) (store : Nat) : Option PriceRow :=
  (prices.filter (fun row => row.product == product && row.store == store)).foldl pickLater none

/-- Modelled from the spec: `Product.objects.get_or_create(name=...)` — the
product list gains the name on first sighting, and products are never
deleted. -/
def ensureProduct (products : List String) (name : String) : List String :=
  if name ∈ products then products else products ++ [name]

/-- Product resolution for a full accepted batch. -/
def ensureProducts (products : List String) (accepted : List RawRecord) : List String :=
  accepted.foldl (fun ps r => ensureProduct ps r.name) products

/-- Modelled from the spec and `docs/cron.md` (`Price.objects.create`): one new
`Price` row per accepted record, with the observed price, `in_stock` as
scraped, and the run timestamp. -/
def newPriceRows (store : Store) (now : Nat) (accepted : List RawRecord) : List PriceRow :=
  accepted.map (fun r => ⟨r.name, store.id, r.price, r.in_stock, now⟩)

/-- Product names that had price rows at this store before the run but are
absent from the run's accepted set (each name listed once). -/
def staleProducts (oldPrices : List PriceRow) (store : Store) (accepted : List RawRecord) :
    List String :=
  (((oldPrices.filter (fun row => row.store == store.id)).map PriceRow.product).dedup).filter
    (fun name => !(accepted.any (fun r => r.name == name)))

/-- Modelled from the spec: the unavailable-marking pass appends, for every
stale product, a new `Price` row carrying the last known price and
`is_available := false` — historical rows are never deleted. -/
def markUnavailable (oldPrices : List PriceRow) (store : Store) (accepted : List RawRecord)
    (now : Nat) : List PriceRow :=
  (staleProducts oldPrices store accepted).filterMap (fun name =>
    (mostRecent oldPrices name store.id).map (fun last =>
      ⟨name, store.id, last.price_value, false, now⟩))

/-- Counters returned by one reconciliation run. -/
structure ReconcileResult where
  inserted : Nat
  updated_unavailable : Nat
  deriving DecidableEq, Repr

/-- Modelled from the spec: `reconcile(accepted_records, store)` — insert one
`Price` row per accepted record, then run the unavailable-marking pass against
the pre-run table; the table only ever grows. -/
def reconcile (accepted : List RawRecord) (store : Store) (db : ScrapeDB) (now : Nat) :
    ScrapeDB × ReconcileResult :=
  let stale := markUnavailable db.prices store accepted now
  ({ products := ensureProducts db.products accepted,
     prices := db.prices ++ newPriceRows store now accepted ++ stale },
   ⟨(newPriceRows store now accepted).length, stale.length⟩)

/-- Error taxonomy of the scraping engine (spec §7): store-resolution failures
are permanent, transient failures are retried, unsupported chains are skipped,
and only infrastructure failures are fatal to a run. -/
inductive ScrapeError where
  | storeResolution (external_store_id : String)
  | transient (message : String)
  | unsupportedChain (chain_name : String)
  | infrastructure (message : String)
  deriving DecidableEq, Repr

/-- True exactly on the transient error kind, the only kind eligible for retry. -/
def isTransient : ScrapeError → Bool
  | .transient _ => true
  | _ => false

/-- Browser session state owned by one store scrape: cookies, script-accessible
storage, and the location selected through the UI selector where a chain uses
UI navigation. -/
structure BrowserSession where
  cookies : List (String × String)
  localStorage : List (String × String)
  selectedLocation : Option String
  deriving DecidableEq, Repr

/-- Set a key to a value in a cookie/storage association list: replace the
value under an existing key, else append the pair. -/
def setEntry (entries : List (String × String)) (key value : String) :
    List (String × String) :=
  if entries.any (fun e => e.1 == key) then
    entries.map (fun e => if e.1 == key then (key, value) else e)
  else entries ++ [(key, value)]

/-- Selenium `driver.add_cookie({'name': name, 'value': value, ...})`. -/
def addCookie (s : BrowserSession) (name value : String) : BrowserSession :=
  { s with cookies := setEntry s.cookies name value }

/-- Selenium `driver.execute_script("localStorage.setItem(key, value);")`. -/
def setLocalStorage (s : BrowserSession) (key value : String) : BrowserSession :=
  { s with localStorage := setEntry s.localStorage key value }

/-- Modelled from the spec and `docs/cron.md`: `driver.refresh()` reloads the
page so rendered content reflects the selected location; it does not change
cookies, script storage or the selected location, so on this state model it is
the identity. -/
def refresh (s : BrowserSession) : BrowserSession := s

/-- The three store-context injection strategies of spec §4.2: cookie-based,
client-storage-based with a chain-internal id map, and UI-navigation-based
against the chain's current location list. -/
inductive InjectorStrategy where
  | cookieBased (cookieName : String)
  | storageBased (storageKey cookieName : String) (idMap : List (String × String))
  | uiNavigation (locationList : List String)
  deriving DecidableEq, Repr

/-- Modelled from the spec (`StoreContextInjector.apply`) and the
`set_store_context` fragments in `docs/cron.md`: establish the selected-store
state in the session before extraction, raising `storeResolution` when the
target store cannot be resolved on the retailer's site (the actual scraper
modules `apps/scraper/stores/*.py` are not part of the repository snapshot). -/
def applyInjector (strategy : InjectorStrategy) (s : BrowserSession) (ctx : StoreContext) :
    Except ScrapeError BrowserSession :=
  match strategy with
  | .cookieBased cookieName =>
      .ok (refresh (addCookie s cookieName ctx.external_store_id))
  | .storageBased storageKey cookieName idMap =>
      match idMap.lookup ctx.external_store_id with
      | none => .error (.storeResolution ctx.external_store_id)
      | some numericId =>
          .ok (refresh (addCookie (setLocalStorage s storageKey numericId) cookieName numericId))
  | .uiNavigation locationList =>
      if ctx.external_store_id ∈ locationList then
        .ok (refresh { s with selectedLocation := some ctx.external_store_id })
      else .error (.storeResolution ctx.external_store_id)

/-- The resolved selected-location state a strategy establishes in a session. -/
def resolvedLocation (strategy : InjectorStrategy) (s : BrowserSession) : Option String :=
  match strategy with
  | .cookieBased cookieName => s.cookies.lookup cookieName
  | .storageBased storageKey _ _ => s.localStorage.lookup storageKey
  | .uiNavigation _ => s.selectedLocation

/-- The ATB strategy from `docs/cron.md`: inject the `selectedStore` cookie
with the external store id, then refresh. -/
def atbInjector : InjectorStrategy := .cookieBased "selectedStore"

/-- The Silpo external-to-numeric store id map from `docs/cron.md`. -/
def silpoStoreIdMap : List (String × String) :=
  [("silpo-lviv-forum", "2043"), ("silpo-lviv-skymall", "2044")]

/-- The Silpo strategy from `docs/cron.md`: map the external id to the chain's
numeric id, write `activeStoreId` to localStorage and the `storeId` cookie,
then refresh. -/
def silpoInjector : InjectorStrategy := .storageBased "activeStoreId" "storeId" silpoStoreIdMap

/-- Modelled from the spec: per-store retry loop — attempt `i` is re-run (up to
the configured retry budget) only after a transient failure; permanent failures
and successes return immediately.  Returns the final result and the number of
attempts consumed. -/
def runWithRetryAux (attempt : Nat → Except ScrapeError BrowserSession) :
    Nat → Nat → Except ScrapeError BrowserSession × Nat
  | retries, i =>
    match attempt i with
    | .ok a => (.ok a, 1)
    | .error e =>
      if isTransient e then
        match retries with
        | 0 => (.error e, 1)
        | retries' + 1 =>
          let next := runWithRetryAux attempt retries' (i + 1)
          (next.1, next.2 + 1)
      else (.error e, 1)

/-- Retry entry point: first attempt plus up to `retries` re-attempts. -/
def runWithRetry (attempt : Nat → Except ScrapeError BrowserSession) (retries : Nat) :
    Except ScrapeError BrowserSession × Nat :=
  runWithRetryAux attempt retries 0

/-- One listing parsed out of a category page DOM, before price
normalization. -/
structure Listing where
  name : String
  priceText : String
  in_stock : Bool
  deriving DecidableEq, Repr

/-- Numeric value of a digit string. -/
def digitsToNat (ds : List Char) : Nat :=
  ds.foldl (fun n c => 10 * n + (c.toNat - '0'.toNat)) 0

/-- Split a character list on a separator character. -/
def splitOnChar (sep : Char) : List Char → List (List Char)
  | [] => [[]]
  | c :: rest =>
    let parts := splitOnChar sep rest
    if c = sep then [] :: parts
    else
      match parts with
      | [] => [[c]]
      | w :: ws => (c :: w) :: ws

/-- Modelled from the spec: extractor price parsing tolerates locale-formatted
numbers — the decimal comma is normalized to a dot, currency symbols and other
non-numeric characters are stripped — and returns the normalized numeric value,
or `none` for an unparsable price (the record is then marked malformed and
excluded, not raised). -/
def parsePrice (text : String) : Option Rat :=
  let cleaned := (text.toList.map (fun c => if c = ',' then '.' else c)).filter
    (fun c => c.isDigit || c == '.')
  match splitOnChar '.' cleaned with
  | [w] =>
      if w ≠ [] ∧ w.all Char.isDigit then some (mkRat (digitsToNat w) 1) else none
  | [w, f] =>
      if w ≠ [] ∧ f ≠ [] ∧ w.all Char.isDigit ∧ f.all Char.isDigit then
        some (mkRat ((digitsToNat w) * 10 ^ f.length + digitsToNat f) (10 ^ f.length))
      else none
  | _ => none

/-- Modelled from the spec (`PageExtractor.extract`): each listing whose price
parses becomes a `RawRecord` echoing the context's `chain_name` and
`external_store_id`; a malformed listing is excluded and the rest of the page
is still produced. -/
def extract (ctx : StoreContext) (listings : List Listing) : List RawRecord :=
  listings.filterMap (fun l =>
    (parsePrice l.priceText).map (fun p =>
      ⟨ctx.chain_name, ctx.external_store_id, l.name, p, l.in_stock⟩))

/-- Per-store outcome counters reported into the run summary. -/
structure StoreStats where
  validated : Nat
  rejected : Nat
  deriving DecidableEq, Repr

/-- Per-run summary emitted by the orchestrator: stores attempted, succeeded,
failed (with the error), skipped as unsupported, and validation counters. -/
structure RunSummary where
  attempted : List Nat
  succeeded : List Nat
  failed : List (Nat × ScrapeError)
  unsupported : List Nat
  validated : Nat
  rejected : Nat
  deriving DecidableEq, Repr

/-- The all-zero summary a run starts from. -/
def emptySummary : RunSummary := ⟨[], [], [], [], 0, 0⟩

/-- External collaborators of one run: whether the persistence layer is
reachable, and the per-store scrape outcome (context injection, extraction,
validation and reconciliation for that store, after retries). -/
structure ScraperEnv where
  dbReachable : Bool
  storeRun : Store → Except ScrapeError StoreStats

/-- True when the store's chain has a registered scraper strategy. -/
def isRegistered (registry : List String) (st : Store) : Bool :=
  decide (st.chain_name ∈ registry)

/-- True when the per-store scrape of this run succeeds. -/
def runOk (env : ScraperEnv) (st : Store) : Bool :=
  match env.storeRun st with
  | .ok _ => true
  | .error _ => false

/-- Modelled from the spec and `docs/cron.md` (`scrape_all_stores`): handle one
active store — a store of an unregistered chain is listed under `unsupported`;
otherwise the store is attempted, and its success or failure is recorded
locally in the summary, never aborting the fold. -/
def processStore (registry : List String) (env : ScraperEnv) (summary : RunSummary)
    (store : Store) : RunSummary :=
  if store.chain_name ∈ registry then
    match env.storeRun store with
    | .ok stats =>
        { summary with
          attempted := summary.attempted ++ [store.id],
          succeeded := summary.succeeded ++ [store.id],
          validated := summary.validated + stats.validated,
          rejected := summary.rejected + stats.rejected }
    | .error e =>
        { summary with
          attempted := summary.attempted ++ [store.id],
          failed := summary.failed ++ [(store.id, e)] }
  else { summary with unsupported := summary.unsupported ++ [store.id] }

/-- Summary produced by folding all active stores of a run. -/
def runSummaryOf (registry : List String) (env : ScraperEnv) (stores : List Store) :
    RunSummary :=
  (stores.filter (fun st => st.is_active)).foldl (processStore registry env) emptySummary

/-- Modelled from the spec and `docs/cron.md` (`scrape_all_stores` task):
iterate the active stores, resolving each chain's strategy; only an unreachable
persistence layer aborts the run, every retailer-level failure is contained in
the per-store summary entry. -/
def scrape_all_stores (registry : List String) (env : ScraperEnv) (stores : List Store) :
    Except ScrapeError RunSummary :=
  if env.dbReachable = false then .error (.infrastructure "persistence layer unreachable")
  else .ok (runSummaryOf registry env stores)

/-- Operations that touch the `Store` table over the system's life: seeding
imports and deactivation of discontinued locations; scrape runs read but never
write the table. -/
inductive StoreOp where
  | seed (chain address ext url : String) (lat lng : Rat)
  | deactivate (ext : String)
  | scrapeRun
  deriving Repr

/-- Modelled from the spec: the seeding import inserts a store row unless one
of the unique constraints — `(chain_name, address)` or `external_store_id` —
would be violated, in which case the row is skipped. -/
def seedStore (tbl : List Store) (chain address ext url : String) (lat lng : Rat) :
    List Store :=
  if tbl.any (fun s => (s.chain_name == chain && s.address == address)
      || s.external_store_id == ext) then tbl
  else tbl ++ [⟨tbl.length, chain, address, ext, url, lat, lng, true⟩]

/-- Modelled from the spec: a location the retailer discontinues is
deactivated in place — `is_active := false` — never deleted. -/
def deactivateStore (tbl : List Store) (ext : String) : List Store :=
  tbl.map (fun s => if s.external_store_id == ext then { s with is_active := false } else s)

/-- Apply one store-table operation; a scrape run leaves the table unchanged. -/
def applyStoreOp (tbl : List Store) : StoreOp → List Store
  | .seed chain address ext url lat lng => seedStore tbl chain address ext url lat lng
  | .deactivate ext => deactivateStore tbl ext
  | .scrapeRun => tbl

/-- Store table reached from the empty system by a sequence of operations. -/
def runStoreOps (ops : List StoreOp) : List Store := ops.foldl applyStoreOp []

/-- Uniqueness invariant of the `Store` table: `(chain_name, address)` pairs
and `external_store_id` values are pairwise distinct. -/
def StoreTableInv (tbl : List Store) : Prop :=
  (tbl.map (fun s => (s.chain_name, s.address))).Nodup ∧
    (tbl.map Store.external_store_id).Nodup

/-- Store table seeded for concrete runs: the ATB test store of spec §8. -/
def demoStoreTable : List Store :=
  [⟨1, "АТБ", "Test St 1", "atb-test-1", "https://atbmarket.com", 49, 24, true⟩]

/-- Store context of the ATB Horodotska store, used by concrete runs. -/
def demoCtx : StoreContext := ⟨"atb-lviv-gorodocka", "АТБ", "вул. Городоцька, 48", 49, 24⟩

/-- Registry of chains with registered scraper strategies, for concrete runs. -/
def demoRegistry : List String := ["АТБ", "Сільпо"]

/-- Concrete run environment: the persistence layer is reachable, store 1's
scrape fails with a transient error after retries, every other store
succeeds. -/
def demoEnv : ScraperEnv :=
  ⟨true, fun st => if st.id = 1 then .error (.transient "timeout") else .ok ⟨2, 1⟩⟩

/-- Concrete stores: two supported chains, one unknown chain. -/
def demoRunStores : List Store :=
  [⟨1, "АТБ", "вул. Городоцька, 48", "atb-lviv-gorodocka", "https://atbmarket.com", 49, 24, true⟩,
   ⟨2, "Сільпо", "Ул. Під Дубом, 7б", "silpo-lviv-forum", "https://silpo.ua", 49, 24, true⟩,
   ⟨3, "Unknown", "вул. Тестова, 1", "unk-1", "https://unknown.example", 49, 24, true⟩]

/-- Store context whose external id is absent from the Silpo location map. -/
def demoBadCtx : StoreContext := ⟨"silpo-unknown", "Сільпо", "вул. Тестова, 1", 49, 24⟩

/-- Fresh browser session with no cookies, no storage, no selected location. -/
def demoSession : BrowserSession := ⟨[], [], none⟩

/-- The ATB store used by the concrete reconciliation run. -/
def demoReconStore : Store :=
  ⟨1, "АТБ", "вул. Городоцька, 48", "atb-lviv-gorodocka", "https://atbmarket.com", 49, 24, true⟩

/-- Run-1 state: products A, B, C all priced at the store at timestamp 1. -/
def demoDB : ScrapeDB :=
  ⟨["A", "B", "C"],
   [⟨"A", 1, 40, true, 1⟩, ⟨"B", 1, 50, true, 1⟩, ⟨"C", 1, 60, true, 1⟩]⟩

/-- Run-2 accepted records: only A and B found. -/
def demoRun2 : List RawRecord :=
  [⟨"АТБ", "atb-lviv-gorodocka", "A", 41, true⟩,
   ⟨"АТБ", "atb-lviv-gorodocka", "B", 51, true⟩]

lemma addToCartLoop_id_map (p : Product) (items : List CartItem) :
    (addToCartLoop p items).map CartItem.id =
      if p.id ∈ items.map CartItem.id then items.map CartItem.id
      else items.map CartItem.id ++ [p.id] := by
  induction items with
  | nil => simp [addToCartLoop]
  | cons it rest ih =>
    by_cases h : it.id = p.id
    · simp [addToCartLoop, h]
    · have hne : p.id ≠ it.id := fun hh => h hh.symm
      simp only [addToCartLoop, if_neg h, List.map_cons, List.mem_cons, ih]
      by_cases hm : p.id ∈ rest.map CartItem.id
      · simp [hm]
      · simp [hm, hne]

lemma addToCartLoop_quantity (p : Product) (items : List CartItem)
    (h : ∀ it ∈ items, 1 ≤ it.quantity) :
    ∀ it' ∈ addToCartLoop p items, 1 ≤ it'.quantity := by
  induction items with
  | nil =>
    intro it' hit'
    simp only [addToCartLoop, List.mem_singleton] at hit'
    subst hit'; exact le_refl 1
  | cons it rest ih =>
    intro it' hit'
    by_cases hid : it.id = p.id
    · simp only [addToCartLoop, if_pos hid, List.mem_cons] at hit'
      rcases hit' with h1 | h2
      · subst h1
        have := h it (by simp)
        simp only
        omega
      · exact h it' (by simp [h2])
    · simp only [addToCartLoop, if_neg hid, List.mem_cons] at hit'
      rcases hit' with h1 | h2
      · subst h1; exact h it' (by simp)
      · exact ih (fun j hj => h j (by simp [hj])) it' h2

lemma cartInv_applyCartOp (items : List CartItem) (op : CartOp)
    (h : CartInv items) : CartInv (applyCartOp items op) := by
  obtain ⟨hq, hz, hnd⟩ := h
  cases op with
  | add p =>
    simp only [applyCartOp, addToCart]
    by_cases hp : p.id = 0
    · simpa [hp] using ⟨hq, hz, hnd⟩
    · rw [if_neg hp]
      refine ⟨addToCartLoop_quantity p items hq, ?_, ?_⟩
      · intro it' hit'
        have hmap := addToCartLoop_id_map p items
        have : it'.id ∈ (addToCartLoop p items).map CartItem.id :=
          List.mem_map_of_mem CartItem.id hit'
        rw [hmap] at this
        by_cases hm : p.id ∈ items.map CartItem.id
        · rw [if_pos hm] at this
          obtain ⟨j, hj, hjid⟩ := List.mem_map.mp this
          rw [← hjid]; exact hz j hj
        · rw [if_neg hm, List.mem_append] at this
          rcases this with h1 | h2
          · obtain ⟨j, hj, hjid⟩ := List.mem_map.mp h1
            rw [← hjid]; exact hz j hj
          · simp only [List.mem_singleton] at h2
            rw [h2]; exact hp
      · rw [addToCartLoop_id_map]
        by_cases hm : p.id ∈ items.map CartItem.id
        · simpa [hm] using hnd
        · rw [if_neg hm]
          exact List.Nodup.append hnd (List.nodup_singleton p.id)
            (fun a ha hap => hm ((List.mem_singleton.mp hap) ▸ ha))
  | remove productId =>
    refine ⟨?_, ?_, ?_⟩
    · intro it hit
      exact hq it (List.mem_of_mem_filter hit)
    · intro it hit
      exact hz it (List.mem_of_mem_filter hit)
    · exact List.Nodup.sublist (List.Sublist.map _ (List.filter_sublist items)) hnd
  | update productId change =>
    simp only [applyCartOp]
    refine ⟨?_, ?_, ?_⟩
    · intro it hit
      obtain ⟨j, hj, hjit⟩ := List.mem_map.mp hit
      by_cases hjid : j.id = productId
      · rw [← hjit]; simp [hjid, le_max_left]
      · rw [← hjit]; simp only [if_neg hjid]; exact hq j hj
    · intro it hit
      obtain ⟨j, hj, hjit⟩ := List.mem_map.mp hit
      by_cases hjid : j.id = productId
      · rw [← hjit]; simpa [hjid] using hz j hj
      · rw [← hjit]; simp only [if_neg hjid]; exact hz j hj
    · have hmapid : (updateQuantity items productId change).map CartItem.id =
          items.map CartItem.id := by
        simp only [updateQuantity, List.map_map]
        refine List.map_congr_left ?_
        intro j hj
        by_cases hjid : j.id = productId <;> simp [hjid]
      rw [hmapid]; exact hnd
  | setQty productId q =>
    simp only [applyCartOp]
    refine ⟨?_, ?_, ?_⟩
    · intro it hit
      obtain ⟨j, hj, hjit⟩ := List.mem_map.mp hit
      by_cases hjid : j.id = productId
      · rw [← hjit]; simp [hjid, le_max_left]
      · rw [← hjit]; simp only [if_neg hjid]; exact hq j hj
    · intro it hit
      obtain ⟨j, hj, hjit⟩ := List.mem_map.mp hit
      by_cases hjid : j.id = productId
      · rw [← hjit]; simpa [hjid] using hz j hj
      · rw [← hjit]; simp only [if_neg hjid]; exact hz j hj
    · have hmapid : (setQuantity items productId q).map CartItem.id =
          items.map CartItem.id := by
        simp only [setQuantity, List.map_map]
        refine List.map_congr_left ?_
        intro j hj
        by_cases hjid : j.id = productId <;> simp [hjid]
      rw [hmapid]; exact hnd
  | clear => simp [applyCartOp, clearCart, CartInv]

lemma cartInv_foldl (ops : List CartOp) (items : List CartItem) (h : CartInv items) :
    CartInv (ops.foldl applyCartOp items) := by
  induction ops generalizing items with
  | nil => exact h
  | cons op rest ih => exact ih _ (cartInv_applyCartOp items op h)

lemma cartInv_runCart (ops : List CartOp) : CartInv (runCart ops) :=
  cartInv_foldl ops [] (by simp [CartInv])

lemma map_bumpFirst_of_not_mem (pid : Int) (l : List CartItem)
    (h : ∀ j ∈ l, j.id ≠ pid) :
    l.map (fun j => if j.id = pid then { j with quantity := j.quantity + 1 } else j) = l := by
  induction l with
  | nil => rfl
  | cons it rest ih =>
    simp only [List.map_cons, if_neg (h it (by simp)), List.cons.injEq, true_and]
    exact ih fun j hj => h j (by simp [hj])

lemma addToCartLoop_eq_map (p : Product) (items : List CartItem)
    (hnd : (items.map CartItem.id).Nodup) (hmem : p.id ∈ items.map CartItem.id) :
    addToCartLoop p items =
      items.map (fun j => if j.id = p.id then { j with quantity := j.quantity + 1 } else j) := by
  induction items with
  | nil => simp at hmem
  | cons it rest ih =>
    simp only [List.map_cons, List.nodup_cons] at hnd
    by_cases h : it.id = p.id
    · simp only [addToCartLoop, if_pos h, List.map_cons, if_pos h, List.cons.injEq, true_and]
      have : ∀ j ∈ rest, j.id ≠ p.id := by
        intro j hj hp
        exact hnd.1 (h ▸ hp ▸ List.mem_map_of_mem CartItem.id hj)
      exact (map_bumpFirst_of_not_mem p.id rest this).symm
    · have hmem' : p.id ∈ rest.map CartItem.id := by
        rcases List.mem_cons.mp hmem with h1 | h2
        · exact absurd h1.symm h
        · exact h2
      simp only [addToCartLoop, if_neg h, List.map_cons, if_neg h, List.cons.injEq, true_and]
      exact ih hnd.2 hmem'

/-- C9: after any sequence of cart operations starting from the empty cart,
every remaining item has quantity at least 1 and no two items share an id;
`addToCart` on an id already in the cart is exactly a pointwise quantity bump
of that item (no duplicate line is appended), and `updateQuantity` /
`setQuantity` clamp every resulting quantity to a minimum of 1. -/
theorem cartProvider_invariant (ops : List CartOp) (p : Product)
    (productId change q : Int) :
    (∀ it ∈ runCart ops, 1 ≤ it.quantity) ∧
    ((runCart ops).map CartItem.id).Nodup ∧
    ((∃ it ∈ runCart ops, it.id = p.id) →
      addToCart (runCart ops) p =
        (runCart ops).map
          (fun j => if j.id = p.id then { j with quantity := j.quantity + 1 } else j)) ∧
    (∀ it ∈ updateQuantity (runCart ops) productId change, 1 ≤ it.quantity) ∧
    (∀ it ∈ setQuantity (runCart ops) productId q, 1 ≤ it.quantity) := by
  obtain ⟨hq, hz, hnd⟩ := cartInv_runCart ops
  refine ⟨hq, hnd, ?_, ?_, ?_⟩
  · rintro ⟨it, hit, hid⟩
    have hp0 : p.id ≠ 0 := hid ▸ hz it hit
    rw [addToCart, if_neg hp0]
    exact addToCartLoop_eq_map p (runCart ops) hnd
      (hid ▸ List.mem_map_of_mem CartItem.id hit)
  · exact (cartInv_applyCartOp (runCart ops) (.update productId change)
      ⟨hq, hz, hnd⟩).1
  · exact (cartInv_applyCartOp (runCart ops) (.setQty productId q)
      ⟨hq, hz, hnd⟩).1

/-- Witness for C9 at a concrete run: one product added once, then added again. -/
theorem cartProvider_invariant_witness :
    addToCart (runCart [CartOp.add ⟨1, "Milk", 7⟩]) ⟨1, "Milk", 7⟩ =
      (runCart [CartOp.add ⟨1, "Milk", 7⟩]).map
        (fun j => if j.id = (Product.mk 1 "Milk" 7).id then
          { j with quantity := j.quantity + 1 } else j) :=
  (cartProvider_invariant [CartOp.add ⟨1, "Milk", 7⟩] ⟨1, "Milk", 7⟩ 1 1 1).2.2.1
    ⟨⟨1, "Milk", 7, 1⟩, by decide, rfl⟩

lemma sortByTotal_perm (storeList : List StoreEntry) :
    (sortByTotal storeList).Perm storeList :=
  List.perm_insertionSort _ storeList

lemma sortByTotal_sorted (storeList : List StoreEntry) :
    List.Sorted (fun a b => a.total_price ≤ b.total_price) (sortByTotal storeList) :=
  List.sorted_insertionSort _ storeList

/-- C10: on a non-empty store list with pairwise-distinct ids,
`assignStoreBadges` preserves length, order, ids and prices; exactly one
output store has `isBest = true`, it carries the badge `"Найкраща ціна"` and a
minimal `total_price`; every store with a strictly larger `total_price` has
`isBest = false`; and the empty list maps to the empty list. -/
theorem assignStoreBadges_spec (storeList : List StoreEntry)
    (hne : storeList ≠ [])
    (hids : (storeList.map StoreEntry.id).Nodup) :
    assignStoreBadges [] = [] ∧
    (assignStoreBadges storeList).length = storeList.length ∧
    (assignStoreBadges storeList).map BadgedStore.id = storeList.map StoreEntry.id ∧
    (assignStoreBadges storeList).map BadgedStore.total_price
      = storeList.map StoreEntry.total_price ∧
    ∃ b ∈ assignStoreBadges storeList,
      b.isBest = true ∧ b.badge = some "Найкраща ціна" ∧
      (∀ s ∈ storeList, b.total_price ≤ s.total_price) ∧
      (∀ b' ∈ assignStoreBadges storeList, b'.isBest = true → b' = b) ∧
      (∀ b' ∈ assignStoreBadges storeList, b.total_price < b'.total_price →
        b'.isBest = false) := by
  cases hs : sortByTotal storeList with
  | nil =>
    have hperm := sortByTotal_perm storeList
    rw [hs] at hperm
    exact absurd hperm.symm.eq_nil hne
  | cons s0 rest =>
    have heq : assignStoreBadges storeList = storeList.map (badgeFor s0 rest.head?) := by
      unfold assignStoreBadges
      rw [hs]
    have hperm := sortByTotal_perm storeList
    rw [hs] at hperm
    have hs0mem : s0 ∈ storeList := hperm.mem_iff.mp (by simp)
    have hsorted := sortByTotal_sorted storeList
    rw [hs] at hsorted
    have hmin : ∀ s ∈ storeList, s0.total_price ≤ s.total_price := by
      intro s hsmem
      rcases List.mem_cons.mp (hperm.mem_iff.mpr hsmem) with h1 | h2
      · rw [h1]
      · exact List.rel_of_sorted_cons hsorted s h2
    have hinj := List.inj_on_of_nodup_map hids
    refine ⟨rfl, ?_, ?_, ?_, ?_⟩
    · rw [heq, List.length_map]
    · rw [heq, List.map_map]
      exact List.map_congr_left fun s _ => rfl
    · rw [heq, List.map_map]
      exact List.map_congr_left fun s _ => rfl
    · refine ⟨badgeFor s0 rest.head? s0, heq ▸ List.mem_map_of_mem _ hs0mem,
        ?_, ?_, ?_, ?_, ?_⟩
      · simp [badgeFor]
      · simp [badgeFor]
      · intro s hsmem
        exact hmin s hsmem
      · intro b' hb' hbest
        rw [heq] at hb'
        obtain ⟨s, hsmem, rfl⟩ := List.mem_map.mp hb'
        have hsid : (s.id == s0.id) = true := by
          by_contra hc
          have hfalse : (s.id == s0.id) = false := by
            cases h : (s.id == s0.id) <;> simp_all
          simp [badgeFor, hfalse] at hbest
        have : s = s0 := hinj hsmem hs0mem (eq_of_beq hsid)
        rw [this]
      · intro b' hb' hlt
        rw [heq] at hb'
        obtain ⟨s, hsmem, rfl⟩ := List.mem_map.mp hb'
        have hprices : s0.total_price < s.total_price := hlt
        have hsid : s.id ≠ s0.id := by
          intro hid
          have : s = s0 := hinj hsmem hs0mem hid
          rw [this] at hprices
          exact lt_irrefl _ hprices
        have hfalse : (s.id == s0.id) = false := beq_eq_false_iff_ne.mpr hsid
        simp [badgeFor, hfalse]

/-- Witness for C10 on the three mock stores of the map screen. -/
theorem assignStoreBadges_spec_witness :
    (assignStoreBadges demoStores).map BadgedStore.id = demoStores.map StoreEntry.id :=
  (assignStoreBadges_spec demoStores (by decide) (by decide)).2.2.1

/-- C1: the validator accepts a raw record exactly when its price is strictly
positive, its name is non-empty after trimming, and its chain and external
store id resolve to a known store; it is total (always `accepted` or
`rejected` with a reason, never raising); every record with `price <= 0` is
rejected and never belongs to the accepted set handed to the reconciler. -/
theorem recordValidator_spec (stores : List Store) (r : RawRecord)
    (records : List RawRecord) :
    (validate stores r = .accepted r ↔
      (0 < r.price ∧ trimName r.name ≠ [] ∧ (resolveStore stores r).isSome)) ∧
    ((∃ r', validate stores r = .accepted r') ∨
      (∃ reason, validate stores r = .rejected reason)) ∧
    (r.price ≤ 0 → validate stores r = .rejected "price must be strictly positive") ∧
    (r.price ≤ 0 → r ∉ acceptedRecords stores records) := by
  refine ⟨?_, ?_, ?_, ?_⟩
  · unfold validate
    by_cases hp : r.price ≤ 0
    · have hnlt : ¬ (0 < r.price) := not_lt.mpr hp
      simp [hp, hnlt]
    · have hp' : 0 < r.price := not_le.mp hp
      rw [if_neg hp]
      by_cases hn : trimName r.name = []
      · simp [hn]
      · rw [if_neg hn]
        cases hres : resolveStore stores r with
        | none => simp [hp', hn, hres]
        | some st => simp [hp', hn, hres]
  · cases h : validate stores r with
    | accepted r' => exact .inl ⟨r', rfl⟩
    | rejected reason => exact .inr ⟨reason, rfl⟩
  · intro hp
    unfold validate
    rw [if_pos hp]
  · intro hp hmem
    have h2 := (List.mem_filter.mp hmem).2
    simp [isAccepted, validate, hp] at h2

/-- Witness for C1: the zero-price record of the spec §8 end-to-end scenario
is not in the accepted set. -/
theorem recordValidator_spec_witness :
    (⟨"АТБ", "atb-test-1", "Молоко", 0, true⟩ : RawRecord) ∉
      acceptedRecords demoStoreTable [⟨"АТБ", "atb-test-1", "Молоко", 0, true⟩] :=
  (recordValidator_spec demoStoreTable ⟨"АТБ", "atb-test-1", "Молоко", 0, true⟩
    [⟨"АТБ", "atb-test-1", "Молоко", 0, true⟩]).2.2.2 (by decide)

/-- C5: a locale-formatted price string with a decimal comma normalizes to the
numeric value it denotes — `"45,99"` to the rational 45.99 — and a listing
whose price string does not parse is excluded from the extractor's output
without affecting the remaining listings of the page. -/
theorem pageExtractor_priceParsing (ctx : StoreContext) (pre post : List Listing)
    (bad : Listing) (hbad : parsePrice bad.priceText = none) :
    parsePrice "45,99" = some (mkRat 4599 100) ∧
    (mkRat 4599 100 : Rat) = 4599 / 100 ∧
    extract ctx (pre ++ bad :: post) = extract ctx (pre ++ post) := by
  refine ⟨by decide, ?_, ?_⟩
  · rw [Rat.mkRat_eq_div]
    norm_num
  · simp [extract, List.filterMap_append, List.filterMap_cons, hbad]

/-- Witness for C5: a page with one well-formed and one malformed listing
yields the same records as the page without the malformed listing. -/
theorem pageExtractor_priceParsing_witness :
    extract demoCtx [⟨"Хліб", "12", true⟩, ⟨"Сир", "грн", true⟩] =
      extract demoCtx [⟨"Хліб", "12", true⟩] :=
  (pageExtractor_priceParsing demoCtx [⟨"Хліб", "12", true⟩] []
    ⟨"Сир", "грн", true⟩ (by decide)).2.2

lemma storeTableInv_applyStoreOp (tbl : List Store) (op : StoreOp)
    (h : StoreTableInv tbl) : StoreTableInv (applyStoreOp tbl op) := by
  obtain ⟨hpair, hext⟩ := h
  cases op with
  | seed chain address ext url lat lng =>
    simp only [applyStoreOp, seedStore]
    by_cases hany : tbl.any (fun s => (s.chain_name == chain && s.address == address)
        || s.external_store_id == ext) = true
    · rw [if_pos hany]; exact ⟨hpair, hext⟩
    · rw [if_neg hany]
      have hfree : ∀ s ∈ tbl, ¬(s.chain_name = chain ∧ s.address = address) ∧
          s.external_store_id ≠ ext := by
        intro s hs
        have := fun hcontra => hany (List.any_eq_true.mpr ⟨s, hs, hcontra⟩)
        constructor
        · rintro ⟨h1, h2⟩
          exact this (by simp [h1, h2])
        · intro h1
          exact this (by simp [h1])
      constructor
      · rw [List.map_append]
        refine List.Nodup.append hpair (by simp) ?_
        intro x hx hx'
        simp only [List.map_cons, List.map_nil, List.mem_singleton] at hx'
        obtain ⟨s, hs, hsx⟩ := List.mem_map.mp hx
        rcases hfree s hs with ⟨hnp, _⟩
        exact hnp (by rw [← hsx] at hx'; exact ⟨congrArg Prod.fst hx', congrArg Prod.snd hx'⟩)
      · rw [List.map_append]
        refine List.Nodup.append hext (by simp) ?_
        intro x hx hx'
        simp only [List.map_cons, List.map_nil, List.mem_singleton] at hx'
        obtain ⟨s, hs, hsx⟩ := List.mem_map.mp hx
        rcases hfree s hs with ⟨_, hne⟩
        exact hne (by rw [← hsx] at hx'; exact hx')
  | deactivate ext =>
    constructor
    · have : (deactivateStore tbl ext).map (fun s => (s.chain_name, s.address)) =
          tbl.map (fun s => (s.chain_name, s.address)) := by
        simp only [deactivateStore, List.map_map]
        refine List.map_congr_left ?_
        intro s _
        by_cases hs : s.external_store_id = ext <;> simp [hs]
      rw [applyStoreOp, this]; exact hpair
    · have : (deactivateStore tbl ext).map Store.external_store_id =
          tbl.map Store.external_store_id := by
        simp only [deactivateStore, List.map_map]
        refine List.map_congr_left ?_
        intro s _
        by_cases hs : s.external_store_id = ext <;> simp [hs]
      rw [applyStoreOp, this]; exact hext
  | scrapeRun => exact ⟨hpair, hext⟩

lemma storeTableInv_foldl (ops : List StoreOp) (tbl : List Store)
    (h : StoreTableInv tbl) : StoreTableInv (ops.foldl applyStoreOp tbl) := by
  induction ops generalizing tbl with
  | nil => exact h
  | cons op rest ih => exact ih _ (storeTableInv_applyStoreOp tbl op h)

/-- C6: every store table reachable from the empty system by seeding,
deactivation and scrape runs satisfies the uniqueness invariant —
`(chain_name, address)` pairs and `external_store_id` values are pairwise
distinct — and deactivation never deletes: it preserves the table length,
keeps every non-matching row unchanged, and turns the matching row into the
same row with `is_active := false`. -/
theorem store_uniqueness_invariant (ops : List StoreOp) (ext : String) :
    StoreTableInv (runStoreOps ops) ∧
    (deactivateStore (runStoreOps ops) ext).length = (runStoreOps ops).length ∧
    (∀ s ∈ runStoreOps ops,
      (s.external_store_id ≠ ext → s ∈ deactivateStore (runStoreOps ops) ext) ∧
      (s.external_store_id = ext →
        { s with is_active := false } ∈ deactivateStore (runStoreOps ops) ext)) := by
  refine ⟨storeTableInv_foldl ops [] ⟨List.nodup_nil, List.nodup_nil⟩, ?_, ?_⟩
  · rw [deactivateStore, List.length_map]
  · intro s hs
    constructor
    · intro hne
      have : (if s.external_store_id == ext then { s with is_active := false } else s) = s := by
        simp [hne]
      exact this ▸ List.mem_map_of_mem _ hs
    · intro heq
      have : (if s.external_store_id == ext then { s with is_active := false } else s) =
          { s with is_active := false } := by simp [heq]
      exact this ▸ List.mem_map_of_mem _ hs

/-- Witness for C6: a table reached by two seeding attempts of the same store
(the duplicate is skipped), a deactivation and a scrape run. -/
theorem store_uniqueness_invariant_witness :
    StoreTableInv (runStoreOps
      [.seed "АТБ" "вул. Городоцька, 48" "atb-lviv-gorodocka" "https://atbmarket.com" 49 24,
       .seed "АТБ" "вул. Городоцька, 48" "atb-lviv-gorodocka" "https://atbmarket.com" 49 24,
       .deactivate "atb-lviv-gorodocka", .scrapeRun]) :=
  (store_uniqueness_invariant
    [.seed "АТБ" "вул. Городоцька, 48" "atb-lviv-gorodocka" "https://atbmarket.com" 49 24,
     .seed "АТБ" "вул. Городоцька, 48" "atb-lviv-gorodocka" "https://atbmarket.com" 49 24,
     .deactivate "atb-lviv-gorodocka", .scrapeRun] "atb-lviv-gorodocka").1

lemma foldl_processStore_unsupported (registry : List String) (env : ScraperEnv)
    (stores : List Store) (init : RunSummary) :
    (stores.foldl (processStore registry env) init).unsupported =
      init.unsupported ++
        (stores.filter (fun st => !(isRegistered registry st))).map Store.id := by
  induction stores generalizing init with
  | nil => simp
  | cons st rest ih =>
    rw [List.foldl_cons, ih]
    by_cases hreg : st.chain_name ∈ registry
    · have h1 : (processStore registry env init st).unsupported = init.unsupported := by
        unfold processStore
        rw [if_pos hreg]
        cases env.storeRun st <;> rfl
      have h2 : List.filter (fun st => !(isRegistered registry st)) (st :: rest) =
          List.filter (fun st => !(isRegistered registry st)) rest := by
        simp [List.filter_cons, isRegistered, hreg]
      rw [h1, h2]
    · have h1 : (processStore registry env init st).unsupported =
          init.unsupported ++ [st.id] := by
        unfold processStore
        rw [if_neg hreg]
      have h2 : List.filter (fun st => !(isRegistered registry st)) (st :: rest) =
          st :: List.filter (fun st => !(isRegistered registry st)) rest := by
        simp [List.filter_cons, isRegistered, hreg]
      rw [h1, h2]
      simp

lemma foldl_processStore_attempted (registry : List String) (env : ScraperEnv)
    (stores : List Store) (init : RunSummary) :
    (stores.foldl (processStore registry env) init).attempted =
      init.attempted ++ (stores.filter (isRegistered registry)).map Store.id := by
  induction stores generalizing init with
  | nil => simp
  | cons st rest ih =>
    rw [List.foldl_cons, ih]
    by_cases hreg : st.chain_name ∈ registry
    · have h1 : (processStore registry env init st).attempted =
          init.attempted ++ [st.id] := by
        unfold processStore
        rw [if_pos hreg]
        cases env.storeRun st <;> rfl
      have h2 : List.filter (isRegistered registry) (st :: rest) =
          st :: List.filter (isRegistered registry) rest := by
        simp [List.filter_cons, isRegistered, hreg]
      rw [h1, h2]
      simp
    · have h1 : (processStore registry env init st).attempted = init.attempted := by
        unfold processStore
        rw [if_neg hreg]
      have h2 : List.filter (isRegistered registry) (st :: rest) =
          List.filter (isRegistered registry) rest := by
        simp [List.filter_cons, isRegistered, hreg]
      rw [h1, h2]

lemma foldl_processStore_failed (registry : List String) (env : ScraperEnv)
    (stores : List Store) (init : RunSummary) :
    (stores.foldl (processStore registry env) init).failed.map Prod.fst =
      init.failed.map Prod.fst ++
        (stores.filter (fun st => isRegistered registry st && !(runOk env st))).map Store.id := by
  induction stores generalizing init with
  | nil => simp
  | cons st rest ih =>
    rw [List.foldl_cons, ih]
    by_cases hreg : st.chain_name ∈ registry
    · cases hrun : env.storeRun st with
      | ok stats =>
        have h1 : (processStore registry env init st).failed = init.failed := by
          unfold processStore
          rw [if_pos hreg, hrun]
        have h2 : List.filter (fun st => isRegistered registry st && !(runOk env st))
            (st :: rest) =
            List.filter (fun st => isRegistered registry st && !(runOk env st)) rest := by
          simp [List.filter_cons, isRegistered, hreg, runOk, hrun]
        rw [h1, h2]
      | error e =>
        have h1 : (processStore registry env init st).failed =
            init.failed ++ [(st.id, e)] := by
          unfold processStore
          rw [if_pos hreg, hrun]
        have h2 : List.filter (fun st => isRegistered registry st && !(runOk env st))
            (st :: rest) =
            st :: List.filter (fun st => isRegistered registry st && !(runOk env st)) rest := by
          simp [List.filter_cons, isRegistered, hreg, runOk, hrun]
        rw [h1, h2]
        simp
    · have h1 : (processStore registry env init st).failed = init.failed := by
        unfold processStore
        rw [if_neg hreg]
      have h2 : List.filter (fun st => isRegistered registry st && !(runOk env st))
          (st :: rest) =
          List.filter (fun st => isRegistered registry st && !(runOk env st)) rest := by
        simp [List.filter_cons, isRegistered, hreg]
      rw [h1, h2]

lemma foldl_processStore_succeeded (registry : List String) (env : ScraperEnv)
    (stores : List Store) (init : RunSummary) :
    (stores.foldl (processStore registry env) init).succeeded =
      init.succeeded ++
        (stores.filter (fun st => isRegistered registry st && runOk env st)).map Store.id := by
  induction stores generalizing init with
  | nil => simp
  | cons st rest ih =>
    rw [List.foldl_cons, ih]
    by_cases hreg : st.chain_name ∈ registry
    · cases hrun : env.storeRun st with
      | ok stats =>
        have h1 : (processStore registry env init st).succeeded =
            init.succeeded ++ [st.id] := by
          unfold processStore
          rw [if_pos hreg, hrun]
        have h2 : List.filter (fun st => isRegistered registry st && runOk env st)
            (st :: rest) =
            st :: List.filter (fun st => isRegistered registry st && runOk env st) rest := by
          simp [List.filter_cons, isRegistered, hreg, runOk, hrun]
        rw [h1, h2]
        simp
      | error e =>
        have h1 : (processStore registry env init st).succeeded = init.succeeded := by
          unfold processStore
          rw [if_pos hreg, hrun]
        have h2 : List.filter (fun st => isRegistered registry st && runOk env st)
            (st :: rest) =
            List.filter (fun st => isRegistered registry st && runOk env st) rest := by
          simp [List.filter_cons, isRegistered, hreg, runOk, hrun]
        rw [h1, h2]
    · have h1 : (processStore registry env init st).succeeded = init.succeeded := by
        unfold processStore
        rw [if_neg hreg]
      have h2 : List.filter (fun st => isRegistered registry st && runOk env st)
          (st :: rest) =
          List.filter (fun st => isRegistered registry st && runOk env st) rest := by
        simp [List.filter_cons, isRegistered, hreg]
      rw [h1, h2]

/-- C8: for every run environment and every combination of per-store outcomes,
if the persistence layer is reachable the run completes with a summary in
which every active store of a registered chain was attempted and every active
store of an unregistered chain is listed as unsupported — no single store's
failure aborts the run; the run aborts with a fatal error exactly when the
persistence layer is unreachable. -/
theorem scrapeRun_failure_isolation (registry : List String) (env : ScraperEnv)
    (stores : List Store) :
    (env.dbReachable = true →
      scrape_all_stores registry env stores = .ok (runSummaryOf registry env stores) ∧
      (∀ st ∈ stores, st.is_active = true →
        (st.chain_name ∈ registry →
          st.id ∈ (runSummaryOf registry env stores).attempted) ∧
        (st.chain_name ∉ registry →
          st.id ∈ (runSummaryOf registry env stores).unsupported))) ∧
    (env.dbReachable = false →
      scrape_all_stores registry env stores =
        .error (.infrastructure "persistence layer unreachable")) := by
  constructor
  · intro hdb
    constructor
    · unfold scrape_all_stores
      rw [hdb]
      simp
    · intro st hmem hact
      have hactmem : st ∈ stores.filter (fun s => s.is_active) :=
        List.mem_filter.mpr ⟨hmem, by simp [hact]⟩
      constructor
      · intro hchain
        unfold runSummaryOf
        rw [foldl_processStore_attempted]
        simp only [emptySummary, List.nil_append]
        exact List.mem_map_of_mem Store.id
          (List.mem_filter.mpr ⟨hactmem, by simp [isRegistered, hchain]⟩)
      · intro hchain
        unfold runSummaryOf
        rw [foldl_processStore_unsupported]
        simp only [emptySummary, List.nil_append]
        exact List.mem_map_of_mem Store.id
          (List.mem_filter.mpr ⟨hactmem, by simp [isRegistered, hchain]⟩)
  · intro hdb
    unfold scrape_all_stores
    rw [hdb]
    simp

/-- Witness for C8: with store 1 failing, the run with a reachable persistence
layer still returns the full summary. -/
theorem scrapeRun_failure_isolation_witness :
    scrape_all_stores demoRegistry demoEnv demoRunStores =
      .ok (runSummaryOf demoRegistry demoEnv demoRunStores) :=
  ((scrapeRun_failure_isolation demoRegistry demoEnv demoRunStores).1 rfl).1

/-- C7: an active store whose chain has no registered strategy is skipped
without an error: the run still returns a summary, the store is listed under
`unsupported` exactly once, and every other active store of a registered chain
is still attempted. -/
theorem unsupportedChain_skipped (registry : List String) (env : ScraperEnv)
    (stores : List Store) (st : Store)
    (hdb : env.dbReachable = true)
    (hmem : st ∈ stores) (hactive : st.is_active = true)
    (hchain : st.chain_name ∉ registry)
    (hids : ((stores.filter (fun s => s.is_active)).map Store.id).Nodup) :
    scrape_all_stores registry env stores = .ok (runSummaryOf registry env stores) ∧
    st.id ∈ (runSummaryOf registry env stores).unsupported ∧
    (runSummaryOf registry env stores).unsupported.count st.id = 1 ∧
    (∀ s ∈ stores, s.is_active = true → s.chain_name ∈ registry →
      s.id ∈ (runSummaryOf registry env stores).attempted) := by
  have hiso := (scrapeRun_failure_isolation registry env stores).1 hdb
  have hactmem : st ∈ stores.filter (fun s => s.is_active) :=
    List.mem_filter.mpr ⟨hmem, by simp [hactive]⟩
  have huns : (runSummaryOf registry env stores).unsupported =
      ((stores.filter (fun s => s.is_active)).filter
        (fun s => !(isRegistered registry s))).map Store.id := by
    unfold runSummaryOf
    rw [foldl_processStore_unsupported]
    simp [emptySummary]
  have hmem' : st.id ∈ (runSummaryOf registry env stores).unsupported := by
    rw [huns]
    exact List.mem_map_of_mem Store.id
      (List.mem_filter.mpr ⟨hactmem, by simp [isRegistered, hchain]⟩)
  refine ⟨hiso.1, hmem', ?_, ?_⟩
  · have hnd : (runSummaryOf registry env stores).unsupported.Nodup := by
      rw [huns]
      exact List.Nodup.sublist
        (List.Sublist.map Store.id (List.filter_sublist _)) hids
    exact List.count_eq_one_of_mem hnd hmem'
  · intro s hs hact hreg
    exact ((hiso.2 s hs hact).1) hreg

/-- Witness for C7: the unknown-chain store of the demo run is reported as
unsupported. -/
theorem unsupportedChain_skipped_witness :
    (⟨3, "Unknown", "вул. Тестова, 1", "unk-1", "https://unknown.example", 49, 24, true⟩ :
      Store).id ∈ (runSummaryOf demoRegistry demoEnv demoRunStores).unsupported :=
  (unsupportedChain_skipped demoRegistry demoEnv demoRunStores
    ⟨3, "Unknown", "вул. Тестова, 1", "unk-1", "https://unknown.example", 49, 24, true⟩
    rfl (by decide) rfl (by decide) (by decide)).2.1

/-- C4: when the context's external store id is absent from the chain's
location map, the injector raises the `storeResolution` error — a kind
distinct from transient/extraction failures — the retry loop stops after a
single attempt regardless of the retry budget, and in any run the store whose
scrape fails this way lands in the summary's `failed` list and never in
`succeeded`, while the run itself still completes. -/
theorem storeResolution_permanent (ctx : StoreContext) (s : BrowserSession)
    (retries : Nat) (attempt : Nat → Except ScrapeError BrowserSession)
    (h : silpoStoreIdMap.lookup ctx.external_store_id = none)
    (hattempt : ∀ i, attempt i = applyInjector silpoInjector s ctx) :
    applyInjector silpoInjector s ctx = .error (.storeResolution ctx.external_store_id) ∧
    isTransient (.storeResolution ctx.external_store_id) = false ∧
    (∀ message, (ScrapeError.storeResolution ctx.external_store_id) ≠ .transient message) ∧
    runWithRetry attempt retries = (.error (.storeResolution ctx.external_store_id), 1) ∧
    (∀ registry env stores st, st ∈ stores → st.is_active = true →
      st.chain_name ∈ registry →
      env.storeRun st = .error (.storeResolution ctx.external_store_id) →
      ((stores.filter (fun x => x.is_active)).map Store.id).Nodup →
      st.id ∈ ((runSummaryOf registry env stores).failed.map Prod.fst) ∧
      st.id ∉ (runSummaryOf registry env stores).succeeded) := by
  have happ : applyInjector silpoInjector s ctx =
      .error (.storeResolution ctx.external_store_id) := by
    simp [applyInjector, silpoInjector, h]
  refine ⟨happ, rfl, fun message hm => ScrapeError.noConfusion hm, ?_, ?_⟩
  · unfold runWithRetry
    cases retries <;>
      simp [runWithRetryAux, hattempt, happ, isTransient]
  · intro registry env stores st hmem hact hreg hrun hids
    have hactmem : st ∈ stores.filter (fun x => x.is_active) :=
      List.mem_filter.mpr ⟨hmem, by simp [hact]⟩
    have hrunOk : runOk env st = false := by simp [runOk, hrun]
    constructor
    · unfold runSummaryOf
      rw [foldl_processStore_failed]
      simp only [emptySummary, List.map_nil, List.nil_append]
      exact List.mem_map_of_mem Store.id
        (List.mem_filter.mpr ⟨hactmem, by simp [isRegistered, hreg, hrunOk]⟩)
    · intro hsucc
      unfold runSummaryOf at hsucc
      rw [foldl_processStore_succeeded] at hsucc
      simp only [emptySummary, List.nil_append] at hsucc
      obtain ⟨s', hs', hsid⟩ := List.mem_map.mp hsucc
      have hs'active : s' ∈ stores.filter (fun x => x.is_active) :=
        (List.mem_filter.mp hs').1
      have hseq : s' = st := List.inj_on_of_nodup_map hids hs'active hactmem hsid
      rw [hseq] at hs'
      have hcond := (List.mem_filter.mp hs').2
      simp [isRegistered, runOk, hrun] at hcond

/-- Witness for C4: the unresolvable Silpo context fails after exactly one
attempt with a retry budget of 2. -/
theorem storeResolution_permanent_witness :
    runWithRetry (fun _ => applyInjector silpoInjector demoSession demoBadCtx) 2 =
      (.error (.storeResolution demoBadCtx.external_store_id), 1) :=
  (storeResolution_permanent demoBadCtx demoSession 2
    (fun _ => applyInjector silpoInjector demoSession demoBadCtx)
    (by decide) (fun _ => rfl)).2.2.2.1

lemma setEntry_any (entries : List (String × String)) (key value : String) :
    (setEntry entries key value).any (fun e => e.1 == key) = true := by
  unfold setEntry
  by_cases hany : entries.any (fun e => e.1 == key) = true
  · rw [if_pos hany]
    obtain ⟨e, he, hek⟩ := List.any_eq_true.mp hany
    refine List.any_eq_true.mpr
      ⟨(if e.1 == key then (key, value) else e), List.mem_map_of_mem _ he, ?_⟩
    rw [if_pos hek]
    simp
  · rw [if_neg hany]
    refine List.any_eq_true.mpr ⟨(key, value), by simp, by simp⟩

lemma setEntry_mem_key (entries : List (String × String)) (key value : String) :
    ∀ e ∈ setEntry entries key value, e.1 = key → e = (key, value) := by
  unfold setEntry
  by_cases hany : entries.any (fun e => e.1 == key) = true
  · rw [if_pos hany]
    intro e he hek
    obtain ⟨e0, he0, he0e⟩ := List.mem_map.mp he
    by_cases h0 : e0.1 == key
    · rw [if_pos h0] at he0e
      exact he0e.symm
    · rw [if_neg h0] at he0e
      rw [← he0e] at hek
      exact absurd (by simp [hek]) h0
  · rw [if_neg hany]
    intro e he hek
    rcases List.mem_append.mp he with h1 | h2
    · exfalso
      exact hany (List.any_eq_true.mpr ⟨e, h1, by simp [hek]⟩)
    · simpa using h2

lemma setEntry_setEntry (entries : List (String × String)) (key value : String) :
    setEntry (setEntry entries key value) key value = setEntry entries key value := by
  conv_lhs => rw [setEntry]
  rw [if_pos (setEntry_any entries key value)]
  have hid : ∀ e ∈ setEntry entries key value,
      (if e.1 == key then (key, value) else e) = id e := by
    intro e he
    by_cases hek : e.1 == key
    · rw [if_pos hek]
      exact (setEntry_mem_key entries key value e he (by simpa using hek)).symm
    · rw [if_neg hek]
      rfl
  rw [List.map_congr_left hid, List.map_id]

lemma addCookie_addCookie (s : BrowserSession) (name value : String) :
    addCookie (addCookie s name value) name value = addCookie s name value := by
  simp [addCookie, setEntry_setEntry]

/-- C3: a successful `StoreContextInjector.apply` is idempotent — applying the
same context again to the resulting session succeeds and returns the very same
session, so the resolved selected-location state after the second call is
identical to the state after the first. -/
theorem storeContextInjector_idempotent (strategy : InjectorStrategy)
    (s s₁ : BrowserSession) (ctx : StoreContext)
    (h : applyInjector strategy s ctx = .ok s₁) :
    applyInjector strategy s₁ ctx = .ok s₁ ∧
    (∀ s₂, applyInjector strategy s₁ ctx = .ok s₂ →
      resolvedLocation strategy s₂ = resolvedLocation strategy s₁) := by
  have hfix : applyInjector strategy s₁ ctx = .ok s₁ := by
    cases strategy with
    | cookieBased cookieName =>
      simp only [applyInjector, refresh, Except.ok.injEq] at h
      rw [← h]
      simp only [applyInjector, refresh, Except.ok.injEq]
      exact addCookie_addCookie s cookieName ctx.external_store_id
    | storageBased storageKey cookieName idMap =>
      simp only [applyInjector] at h ⊢
      cases hl : idMap.lookup ctx.external_store_id with
      | none => rw [hl] at h; exact Except.noConfusion h
      | some numericId =>
        rw [hl] at h
        simp only [refresh, Except.ok.injEq] at h
        rw [← h]
        simp only [refresh, Except.ok.injEq]
        simp [addCookie, setLocalStorage, setEntry_setEntry]
    | uiNavigation locationList =>
      simp only [applyInjector] at h ⊢
      by_cases hmem : ctx.external_store_id ∈ locationList
      · rw [if_pos hmem] at h
        simp only [refresh, Except.ok.injEq] at h
        rw [if_pos hmem, ← h]
        simp [refresh]
      · rw [if_neg hmem] at h
        exact Except.noConfusion h
  refine ⟨hfix, ?_⟩
  intro s₂ h₂
  rw [hfix] at h₂
  rw [Except.ok.inj h₂]

/-- Witness for C3: re-applying the ATB cookie strategy to the session it
produced returns that session unchanged. -/
theorem storeContextInjector_idempotent_witness :
    applyInjector atbInjector
        ⟨[("selectedStore", "atb-lviv-gorodocka")], [], none⟩ demoCtx =
      .ok ⟨[("selectedStore", "atb-lviv-gorodocka")], [], none⟩ :=
  (storeContextInjector_idempotent atbInjector demoSession
    ⟨[("selectedStore", "atb-lviv-gorodocka")], [], none⟩ demoCtx rfl).1

lemma foldl_pickLater_mem (l : List PriceRow) :
    ∀ acc b, l.foldl pickLater acc = some b → acc = some b ∨ b ∈ l := by
  induction l with
  | nil =>
    intro acc b h
    exact .inl h
  | cons row rest ih =>
    intro acc b h
    rw [List.foldl_cons] at h
    rcases ih (pickLater acc row) b h with h1 | h2
    · cases acc with
      | none =>
        simp only [pickLater, Option.some.injEq] at h1
        exact .inr (by rw [← h1]; exact List.mem_cons_self row rest)
      | some best =>
        by_cases hle : best.scraped_at ≤ row.scraped_at
        · simp only [pickLater, if_pos hle, Option.some.injEq] at h1
          exact .inr (by rw [← h1]; exact List.mem_cons_self row rest)
        · simp only [pickLater, if_neg hle] at h1
          exact .inl h1
    · exact .inr (List.mem_cons_of_mem row h2)

lemma foldl_pickLater_some (l : List PriceRow) :
    ∀ b, ∃ c, l.foldl pickLater (some b) = some c := by
  induction l with
  | nil => exact fun b => ⟨b, rfl⟩
  | cons row rest ih =>
    intro b
    rw [List.foldl_cons]
    by_cases hle : b.scraped_at ≤ row.scraped_at
    · simpa [pickLater, hle] using ih row
    · simpa [pickLater, hle] using ih b

lemma foldl_pickLater_last (l : List PriceRow) (x : PriceRow)
    (h : ∀ row ∈ l, row.scraped_at ≤ x.scraped_at) :
    (l ++ [x]).foldl pickLater none = some x := by
  rw [List.foldl_append]
  cases hfold : l.foldl pickLater none with
  | none => rfl
  | some b =>
    have hb : b ∈ l := by
      rcases foldl_pickLater_mem l none b hfold with h1 | h2
      · exact Option.noConfusion h1
      · exact h2
    simp [pickLater, h b hb]

lemma mostRecent_isSome (prices : List PriceRow) (p : String) (st : Nat)
    (row : PriceRow) (hrow : row ∈ prices) (hp : row.product = p) (hst : row.store = st) :
    ∃ last, mostRecent prices p st = some last := by
  have hmem : row ∈ prices.filter (fun r => r.product == p && r.store == st) :=
    List.mem_filter.mpr ⟨hrow, by simp [hp, hst]⟩
  unfold mostRecent
  cases hfil : prices.filter (fun r => r.product == p && r.store == st) with
  | nil => rw [hfil] at hmem; exact absurd hmem (List.not_mem_nil row)
  | cons a rest =>
    rw [List.foldl_cons]
    exact foldl_pickLater_some rest a

lemma newPriceRows_filter_not_name (store : Store) (now : Nat)
    (accepted : List RawRecord) (p : String) (st : Nat)
    (habs : ∀ r ∈ accepted, r.name ≠ p) :
    (newPriceRows store now accepted).filter
      (fun row => row.product == p && row.store == st) = [] := by
  rw [List.filter_eq_nil_iff]
  intro row hrow
  obtain ⟨r, hr, hrrow⟩ := List.mem_map.mp hrow
  rw [← hrrow]
  simp [habs r hr]

lemma filterMap_rows_filter (g : String → Option PriceRow) (p : String) (st : Nat)
    (names : List String)
    (hg : ∀ name row, g name = some row → row.product = name ∧ row.store = st)
    (hnd : names.Nodup) :
    (names.filterMap g).filter (fun row => row.product == p && row.store == st)
      = if p ∈ names then (g p).toList else [] := by
  induction names with
  | nil => simp
  | cons name rest ih =>
    rw [List.nodup_cons] at hnd
    rw [List.filterMap_cons]
    cases hgname : g name with
    | none =>
      rw [ih hnd.2]
      by_cases hpn : p = name
      · subst hpn
        rw [if_neg hnd.1, if_pos (List.mem_cons_self p rest), hgname]
        rfl
      · by_cases hpr : p ∈ rest
        · rw [if_pos hpr, if_pos (List.mem_cons_of_mem name hpr)]
        · rw [if_neg hpr, if_neg (by simp [hpn, hpr])]
    | some row =>
      obtain ⟨hprod, hstore⟩ := hg name row hgname
      rw [List.filter_cons]
      by_cases hpn : p = name
      · subst hpn
        have hcond : (row.product == p && row.store == st) = true := by
          simp [hprod, hstore]
        rw [if_pos (by simp [hcond]), ih hnd.2, if_neg hnd.1,
          if_pos (List.mem_cons_self p rest), hgname]
        rfl
      · have hprodne : row.product ≠ p := by
          rw [hprod]
          exact fun hh => hpn hh.symm
        have hcond : (row.product == p && row.store == st) = false := by
          simp [hprodne]
        rw [if_neg (by simp [hcond]), ih hnd.2]
        by_cases hpr : p ∈ rest
        · rw [if_pos hpr, if_pos (List.mem_cons_of_mem name hpr)]
        · rw [if_neg hpr, if_neg (by simp [hpn, hpr])]

lemma staleProducts_nodup (oldPrices : List PriceRow) (store : Store)
    (accepted : List RawRecord) : (staleProducts oldPrices store accepted).Nodup :=
  List.Nodup.filter _ (List.nodup_dedup _)

lemma mem_staleProducts (oldPrices : List PriceRow) (store : Store)
    (accepted : List RawRecord) (p : String) (row : PriceRow)
    (hrow : row ∈ oldPrices) (hp : row.product = p) (hst : row.store = store.id)
    (habs : ∀ r ∈ accepted, r.name ≠ p) :
    p ∈ staleProducts oldPrices store accepted := by
  unfold staleProducts
  refine List.mem_filter.mpr ⟨?_, ?_⟩
  · exact List.mem_dedup.mpr
      (List.mem_map.mpr ⟨row, List.mem_filter.mpr ⟨hrow, by simp [hst]⟩, hp⟩)
  · have : accepted.any (fun r => r.name == p) = false := by
      rw [List.any_eq_false]
      intro r hr
      simpa using habs r hr
    rw [this]
    rfl

/-- C2: after a full-scrape reconciliation run, every product that had a
most-recent price row at the store before the run but is absent from the run's
accepted set has a new most-recent price row carrying the last known price and
`is_available = false`; the pre-run rows form a prefix of the post-run table,
so no pre-existing row is deleted or modified. -/
theorem priceReconciler_stale_marking (accepted : List RawRecord) (store : Store)
    (db : ScrapeDB) (now : Nat) (p : String)
    (hnow : ∀ row ∈ db.prices, row.scraped_at < now)
    (hpre : ∃ row ∈ db.prices, row.product = p ∧ row.store = store.id)
    (habs : ∀ r ∈ accepted, r.name ≠ p) :
    db.prices <+: ((reconcile accepted store db now).1).prices ∧
    (∃ last, mostRecent db.prices p store.id = some last) ∧
    mostRecent ((reconcile accepted store db now).1).prices p store.id
      = (mostRecent db.prices p store.id).map
          (fun last => ⟨p, store.id, last.price_value, false, now⟩) := by
  obtain ⟨row0, hrow0, hp0, hst0⟩ := hpre
  obtain ⟨last, hlast⟩ := mostRecent_isSome db.prices p store.id row0 hrow0 hp0 hst0
  have hprices : ((reconcile accepted store db now).1).prices
      = db.prices ++ newPriceRows store now accepted
        ++ markUnavailable db.prices store accepted now := rfl
  refine ⟨⟨newPriceRows store now accepted ++ markUnavailable db.prices store accepted now,
    by rw [hprices, List.append_assoc]⟩, ⟨last, hlast⟩, ?_⟩
  rw [hprices, hlast]
  simp only [Option.map_some']
  have hstale : (markUnavailable db.prices store accepted now).filter
      (fun row => row.product == p && row.store == store.id)
      = [⟨p, store.id, last.price_value, false, now⟩] := by
    unfold markUnavailable
    have hg : ∀ name row,
        (mostRecent db.prices name store.id).map
          (fun l => (⟨name, store.id, l.price_value, false, now⟩ : PriceRow)) = some row →
        row.product = name ∧ row.store = store.id := by
      intro name row hgr
      obtain ⟨a, _, har⟩ := Option.map_eq_some'.mp hgr
      rw [← har]
      exact ⟨rfl, rfl⟩
    rw [filterMap_rows_filter _ p store.id _ hg
      (staleProducts_nodup db.prices store accepted)]
    rw [if_pos (mem_staleProducts db.prices store accepted p row0 hrow0 hp0 hst0 habs),
      hlast]
    rfl
  unfold mostRecent
  rw [List.filter_append, List.filter_append,
    newPriceRows_filter_not_name store now accepted p store.id habs, hstale,
    List.append_nil]
  exact foldl_pickLater_last _ _
    (fun row hrowf => le_of_lt (hnow row (List.mem_filter.mp hrowf).1))

/-- Witness for C2 on the spec's run-1 `{A, B, C}` / run-2 `{A, B}` scenario:
product C's most recent price row after run 2 is the unavailable marker with
the last known price. -/
theorem priceReconciler_stale_marking_witness :
    mostRecent ((reconcile demoRun2 demoReconStore demoDB 2).1).prices "C" demoReconStore.id
      = (mostRecent demoDB.prices "C" demoReconStore.id).map
          (fun last => ⟨"C", demoReconStore.id, last.price_value, false, 2⟩) :=
  (priceReconciler_stale_marking demoRun2 demoReconStore demoDB 2 "C"
    (by decide) (by decide) (by decide)).2.2

end Fiscus

